import Mathlib

/-!
A shallow embedding of `tools/aapt2/JavaClassGenerator.cpp` (RadeonOS
frameworks_base): the generator that renders a compiled resource table as a
Java `R` class of integer constants.  Strings are Lean `String`s, the output
stream is modelled as the string written so far, the mutable `mError` field
and the boolean return of `generate`/`generateType` are folded into the
`GenResult` type, and C `assert`s are modelled as an explicit
`assertFailed` outcome.
-/

namespace Aapt

/-- Modelled from the spec: `ResourceId` is "the packed (package, type, entry)
numeric identifier"; its definition lives in `Resource.h`, which is not part
of the sources.  We keep the packed 32-bit word, as the C++ struct does. -/
structure ResourceId where
  id : Nat
deriving DecidableEq, Repr

/-- Modelled from the spec: packing of (packageId, typeId, entryId) into one
numeric id, package-major. -/
def ResourceId.pack (p t e : Nat) : ResourceId :=
  ⟨((p <<< 24) ||| (t <<< 16) ||| e) % 2 ^ 32⟩

/-- Modelled from the spec: the validity predicate holds when "all three
components assigned, i.e. non-sentinel" (sentinel = zero field). -/
def ResourceId.isValid (r : ResourceId) : Bool :=
  (r.id &&& 0xff000000) != 0 && (r.id &&& 0x00ff0000) != 0 && (r.id &&& 0x0000ffff) != 0

/-- Modelled from the spec: the type tags of the resource categories the spec
mentions ("string", "id", "styleable", attributes); the full enum lives in
`Resource.h`, outside the sources.  Only `kStyleable` is dispatched on. -/
inductive ResourceType where
  | kAttr
  | kId
  | kString
  | kStyleable
deriving DecidableEq, Repr

/-- Modelled from the spec: the textual tag of a type category. -/
def ResourceType.tag : ResourceType → String
  | .kAttr => "attr"
  | .kId => "id"
  | .kString => "string"
  | .kStyleable => "styleable"

/-- Numeric rank used for the total order on `ResourceType` (the C++ enum
value order; any fixed injective rank gives the same sorted output). -/
def ResourceType.rank : ResourceType → Nat
  | .kAttr => 0
  | .kId => 1
  | .kString => 2
  | .kStyleable => 3

/-- Modelled from the spec: a `ResourceNameRef` is a (package, type, entry
name) triple; defined in `Resource.h`, outside the sources. -/
structure ResourceNameRef where
  package : String
  type : ResourceType
  entry : String
deriving DecidableEq, Repr

/-- Modelled from the spec: a name is valid when its package and entry are
assigned (non-empty). -/
def ResourceNameRef.isValid (n : ResourceNameRef) : Bool :=
  !n.package.isEmpty && !n.entry.isEmpty

/-- Modelled from the spec: rendering of a package-qualified resource name
(type + package-qualified name), used in the error message. -/
def ResourceNameRef.render (n : ResourceNameRef) : String :=
  n.package ++ ":" ++ n.type.tag ++ "/" ++ n.entry

/-- A styleable attribute reference: a ResourceId plus a name. -/
structure Reference where
  id : ResourceId
  name : ResourceNameRef
deriving DecidableEq, Repr

/-- A resource value; the generator only ever looks inside `styleable`
values, every other kind is opaque data. -/
inductive Value where
  | styleable (entries : List Reference)
  | other (tag : Nat)
deriving DecidableEq, Repr

/-- A resource entry: numeric entry id, (possibly mangled) name, values. -/
structure ResourceEntry where
  entryId : Nat
  name : String
  values : List Value
deriving DecidableEq, Repr

/-- A type in the resource table: tag, numeric id, entries in table order. -/
structure ResourceTableType where
  type : ResourceType
  typeId : Nat
  entries : List ResourceEntry
deriving DecidableEq, Repr

/-- The resource table: package name and id, plus the types in table order. -/
structure ResourceTable where
  package : String
  packageId : Nat
  types : List ResourceTableType
deriving DecidableEq, Repr

/-- Generator options; `useFinal` controls the ` final` modifier. -/
structure Options where
  useFinal : Bool
deriving DecidableEq, Repr

/-- `sJavaIdentifiers`: the reserved Java words and literals. -/
def sJavaIdentifiers : List String :=
  ["abstract", "assert", "boolean", "break", "byte",
   "case", "catch", "char", "class", "const", "continue",
   "default", "do", "double", "else", "enum", "extends",
   "final", "finally", "float", "for", "goto", "if",
   "implements", "import", "instanceof", "int", "interface",
   "long", "native", "new", "package", "private", "protected",
   "public", "return", "short", "static", "strictfp", "super",
   "switch", "synchronized", "this", "throw", "throws",
   "transient", "try", "void", "volatile", "while", "true",
   "false", "null"]

/-- `isValidSymbol`: a symbol is valid iff it is not a reserved word. -/
def isValidSymbol (symbol : String) : Bool :=
  !(sJavaIdentifiers.contains symbol)

/-- The character-level step of `transform`. -/
def transformChar (c : Char) : Char :=
  if c = '.' ∨ c = '-' then '_' else c

/-- `transform`: replace `.` and `-` with `_` (Java symbols may not contain
them). -/
def transform (symbol : String) : String :=
  ⟨symbol.data.map transformChar⟩

/-- Modelled from the spec: `NameMangler::unmangle` (in `NameMangler.h`,
outside the sources) splits a mangled name at its first separator into
(origin package, plain name); an unmangled name has no separator. -/
def splitMangled : List Char → Option (List Char × List Char)
  | [] => none
  | c :: cs =>
    if c = '$' then some ([], cs)
    else match splitMangled cs with
      | some (p, n) => some (c :: p, n)
      | none => none

/-- Modelled from the spec: the unmangle operation
`unmangle(name) -> (originPackage, plainName) | not-mangled`. -/
def unmangle (name : String) : Option (String × String) :=
  (splitMangled name.data).map fun p => (⟨p.1⟩, ⟨p.2⟩)

/-- One hexadecimal digit (lowercase, as `std::hex` prints). -/
def hexChar (n : Nat) : Char :=
  if n < 10 then Char.ofNat (48 + n) else Char.ofNat (87 + n)

/-- Modelled from the spec: a ResourceId is rendered "as its packed integer
form"; the stream operator (in `Resource.h`, outside the sources) prints it
as a zero-padded 8-digit hex literal. -/
def ResourceId.render (r : ResourceId) : String :=
  "0x" ++ ⟨(List.range 8).map fun i => hexChar (r.id / 16 ^ (7 - i) % 16)⟩

/-- ` final` when `useFinal` is set, else nothing. -/
def finalModifier (useFinal : Bool) : String :=
  if useFinal then " final" else ""

/-- The number of attributes to emit per line in a Styleable array
(`kAttribsPerLine`). -/
def kAttribsPerLine : Nat := 4

/-- The sort key of a styleable attribute: the numeric id, with ties broken
by the name triple, as `std::sort` over `std::pair<ResourceId,
ResourceNameRef>` compares. -/
def attrKey (a : ResourceId × ResourceNameRef) :
    Lex (Nat × Lex (String × Lex (Nat × String))) :=
  toLex (a.1.id, toLex (a.2.package, toLex (a.2.type.rank, a.2.entry)))

/-- The (total) sort order used for `sortedAttributes`. -/
def attrLe (a b : ResourceId × ResourceNameRef) : Prop :=
  attrKey a ≤ attrKey b

instance : DecidableRel attrLe := fun a b =>
  inferInstanceAs (Decidable (attrKey a ≤ attrKey b))

/-- `std::sort(sortedAttributes.begin(), sortedAttributes.end())`: the sorted
view of the attribute pairs (any correct sort yields the same list, the
order being total and antisymmetric). -/
def sortAttrs (l : List (ResourceId × ResourceNameRef)) :
    List (ResourceId × ResourceNameRef) :=
  l.insertionSort attrLe

/-- One element of the styleable id array, with the 4-per-line wrapping and
the separating `, ` exactly as the C++ loop writes them. -/
def arrayItem (attrCount i : Nat) (r : ResourceId) : String :=
  (if i % kAttribsPerLine = 0 then "\n            " else "")
    ++ r.render ++ (if i ≠ attrCount - 1 then ", " else "")

/-- The name of a styleable index constant: the owner name, then the
attribute package iff it differs from the table's package, then the
attribute entry name, each transformed and separated by `_`. -/
def indexName (tablePackage entryName : String) (nm : ResourceNameRef) : String :=
  transform entryName
    ++ (if nm.package ≠ tablePackage then "_" ++ transform nm.package else "")
    ++ "_" ++ transform nm.entry

/-- One styleable index-constant line. -/
def indexLine (tablePackage : String) (useFinal : Bool) (entryName : String)
    (i : Nat) (nm : ResourceNameRef) : String :=
  "        public static" ++ finalModifier useFinal ++ " int "
    ++ indexName tablePackage entryName nm ++ " = " ++ toString i ++ ";\n"

/-- The styleable id-array declaration (`public static final int[] ... = {`,
the wrapped sorted ids, `};`), written before the index constants. -/
def styleableArrayDecl (entryName : String)
    (sortedAttributes : List (ResourceId × ResourceNameRef)) : String :=
  "        public static final int[] " ++ transform entryName ++ " = \x7b"
    ++ String.join (sortedAttributes.enum.map fun p =>
         arrayItem sortedAttributes.length p.1 p.2.1)
    ++ "\n        \x7d;\n"

/-- The styleable index constants, one line per sorted attribute position. -/
def styleableIndexDecls (tablePackage : String) (useFinal : Bool)
    (entryName : String)
    (sortedAttributes : List (ResourceId × ResourceNameRef)) : String :=
  String.join (sortedAttributes.enum.map fun p =>
    indexLine tablePackage useFinal entryName p.1 p.2.2)

/-- `JavaClassGenerator::visit(const Styleable&, ...)`: emit the sorted id
array and the index constants.  `none` models a fired assert (an attribute
without a valid id or name). -/
def visitStyleable (tablePackage : String) (useFinal : Bool)
    (entryName : String) (styleable : List Reference) : Option String :=
  if styleable.all (fun attr => attr.id.isValid && attr.name.isValid) then
    let sortedAttributes := sortAttrs (styleable.map fun attr => (attr.id, attr.name))
    some (styleableArrayDecl entryName sortedAttributes
      ++ styleableIndexDecls tablePackage useFinal entryName sortedAttributes)
  else none

/-- The outcome of processing one entry inside `generateType`'s loop. -/
inductive EntryResult where
  | skip
  | emit (s : String)
  | invalid (err : String)
  | assertFail
deriving DecidableEq, Repr

/-- The resolved symbol name of an entry when generating for `package`:
the unmangled plain name when the name is mangled with origin `package`,
the name itself when it is unmangled and `package` is the table's own
package, and `none` when the package filter skips the entry (the
`continue` branches of the loop in `generateType`). -/
def resolvedName (tbl : ResourceTable) (package : String) (name : String) :
    Option String :=
  match unmangle name with
  | some p => if package ≠ p.1 then none else some p.2
  | none => if package ≠ tbl.package then none else some name

/-- The body of `generateType`'s loop for one entry: compute and check the
id, unmangle and filter by package, validate the symbol, then emit either
the styleable block or a plain constant. -/
def processEntry (tbl : ResourceTable) (opts : Options) (package : String)
    (t : ResourceTableType) (entry : ResourceEntry) : EntryResult :=
  let id := ResourceId.pack tbl.packageId t.typeId entry.entryId
  if !id.isValid then .assertFail
  else
    match resolvedName tbl package entry.name with
    | none => .skip
    | some unmangledName =>
      if !isValidSymbol unmangledName then
        .invalid ("invalid symbol name '"
          ++ ResourceNameRef.render ⟨package, t.type, unmangledName⟩ ++ "'")
      else if t.type = ResourceType.kStyleable then
        match entry.values.head? with
        | none => .assertFail
        | some (.styleable s) =>
          match visitStyleable tbl.package opts.useFinal unmangledName s with
          | some out => .emit out
          | none => .assertFail
        | some (.other _) => .emit ""
      else
        .emit ("        public static" ++ finalModifier opts.useFinal ++ " int "
          ++ transform unmangledName ++ " = " ++ id.render ++ ";\n")

/-- The result of `generateType`/`generate`: the text written to the stream
so far, plus success, the `mError` message, or a fired assert. -/
inductive GenResult where
  | ok (out : String)
  | invalidSymbol (out : String) (err : String)
  | assertFailed (out : String)
deriving DecidableEq, Repr

/-- The entry loop of `JavaClassGenerator::generateType`, with the output
accumulated in `acc`. -/
def generateTypeGo (tbl : ResourceTable) (opts : Options) (package : String)
    (t : ResourceTableType) : List ResourceEntry → String → GenResult
  | [], acc => .ok acc
  | entry :: rest, acc =>
    match processEntry tbl opts package t entry with
    | .skip => generateTypeGo tbl opts package t rest acc
    | .emit s => generateTypeGo tbl opts package t rest (acc ++ s)
    | .invalid err => .invalidSymbol acc err
    | .assertFail => .assertFailed acc

/-- `JavaClassGenerator::generateType`: process the type's entries in
order, starting from an empty stream contribution. -/
def generateType (tbl : ResourceTable) (opts : Options) (package : String)
    (t : ResourceTableType) : GenResult :=
  generateTypeGo tbl opts package t t.entries ""

/-- `generateHeader`: the fixed banner and the package declaration. -/
def generateHeader (package : String) : String :=
  "/* AUTO-GENERATED FILE. DO NOT MODIFY.\n *\n"
    ++ " * This class was automatically generated by the\n"
    ++ " * aapt tool from the resource data it found. It\n"
    ++ " * should not be modified by hand.\n */\n\n"
    ++ "package " ++ package ++ ";\n\n"

/-- The type loop of `JavaClassGenerator::generate`: open each type's
nested class, run `generateType`, close it; on failure return at once (the
class stays unclosed, later types are never opened). -/
def generateGo (tbl : ResourceTable) (opts : Options) (package : String) :
    List ResourceTableType → String → GenResult
  | [], acc => .ok (acc ++ "\x7d\n")
  | t :: rest, acc =>
    let acc := acc ++ "    public static final class " ++ t.type.tag ++ " \x7b\n"
    match generateType tbl opts package t with
    | .ok s => generateGo tbl opts package rest (acc ++ s ++ "    \x7d\n")
    | .invalidSymbol s err => .invalidSymbol (acc ++ s) err
    | .assertFailed s => .assertFailed (acc ++ s)

/-- `JavaClassGenerator::generate`: header, `public final class R {`, the
types in table order, and the closing brace. -/
def generate (tbl : ResourceTable) (opts : Options) (package : String) :
    GenResult :=
  generateGo tbl opts package tbl.types
    (generateHeader package ++ "public final class R \x7b\n")

/-- Did generation succeed (the C++ functions returned `true`)? -/
def GenResult.isOk : GenResult → Bool
  | .ok _ => true
  | _ => false

/-- Did a modelled `assert` fire? -/
def GenResult.isAssertFailed : GenResult → Bool
  | .assertFailed _ => true
  | _ => false

/-- The text written to the stream (on failure: the truncated output). -/
def GenResult.out : GenResult → String
  | .ok s => s
  | .invalidSymbol s _ => s
  | .assertFailed s => s

/-- The asserts inside the styleable visitor hold for this value. -/
def Value.styleableAssertOk : Value → Bool
  | .styleable s => s.all fun attr => attr.id.isValid && attr.name.isValid
  | .other _ => true

/-- `assert(!entry->values.empty())` plus the asserts of the visitor on the
first value. -/
def valuesAssertOk : List Value → Bool
  | [] => false
  | v :: _ => v.styleableAssertOk

/-- All asserts reachable while processing this entry hold. -/
def entryAssertOk (tbl : ResourceTable) (t : ResourceTableType)
    (e : ResourceEntry) : Bool :=
  (ResourceId.pack tbl.packageId t.typeId e.entryId).isValid
    && (if t.type = ResourceType.kStyleable then valuesAssertOk e.values else true)

/-- All asserts reachable anywhere during generation hold. -/
def tableAssertOk (tbl : ResourceTable) : Bool :=
  tbl.types.all fun t => t.entries.all fun e => entryAssertOk tbl t e

/-- The entry's resolved name, if it passes the package filter, is not a
reserved word. -/
def entrySymbolOk (tbl : ResourceTable) (package : String)
    (e : ResourceEntry) : Bool :=
  match resolvedName tbl package e.name with
  | some n => isValidSymbol n
  | none => true

/-- Every entry of the type that passes the package filter resolves to a
non-reserved symbol. -/
def typeSymbolsOk (tbl : ResourceTable) (package : String)
    (t : ResourceTableType) : Bool :=
  t.entries.all fun e => entrySymbolOk tbl package e

/-- Every processed entry of the table resolves to a non-reserved symbol. -/
def tableSymbolsOk (tbl : ResourceTable) (package : String) : Bool :=
  tbl.types.all fun t => typeSymbolsOk tbl package t

/-- Two entry lists agree on everything the generator reads: entry ids,
names, and — for styleable types only — the first value. -/
def entriesAgree (isSty : Bool) :
    List ResourceEntry → List ResourceEntry → Bool
  | [], [] => true
  | e :: es, f :: fs =>
    e.entryId == f.entryId && e.name == f.name
      && (!isSty || e.values.head? == f.values.head?)
      && entriesAgree isSty es fs
  | _, _ => false

/-- Two type lists agree on tags, numeric ids and (in the above sense)
entries. -/
def typesAgree : List ResourceTableType → List ResourceTableType → Bool
  | [], [] => true
  | t :: ts, u :: us =>
    t.type == u.type && t.typeId == u.typeId
      && entriesAgree (t.type == ResourceType.kStyleable) t.entries u.entries
      && typesAgree ts us
  | _, _ => false

/-- Two tables that differ only in the values the generator never reads:
values of non-styleable entries, and values after the first of styleable
entries. -/
def tablesAgree (a b : ResourceTable) : Bool :=
  a.package == b.package && a.packageId == b.packageId
    && typesAgree a.types b.types

/-- The entry `"foo"` of the spec's round-trip scenario. -/
def exFooEntry : ResourceEntry := ResourceEntry.mk 1 "foo" []

/-- The `"id"` type of the spec's round-trip scenario. -/
def exIdType : ResourceTableType :=
  ResourceTableType.mk ResourceType.kId 1 [exFooEntry]

/-- The spec's round-trip table: package `"app"`, one `"id"` type with one
entry `"foo"` whose id is `pack(1,1,1)`. -/
def exTable : ResourceTable := ResourceTable.mk "app" 1 [exIdType]

/-- Three styleable attributes, deliberately stored out of id order. -/
def exAttrs : List Reference :=
  [Reference.mk (ResourceId.pack 1 1 30) (ResourceNameRef.mk "app" ResourceType.kAttr "c.x"),
   Reference.mk (ResourceId.pack 1 1 10) (ResourceNameRef.mk "app" ResourceType.kAttr "a"),
   Reference.mk (ResourceId.pack 1 1 20) (ResourceNameRef.mk "other" ResourceType.kAttr "b")]

/-- A permutation of `exAttrs`. -/
def exAttrsPerm : List Reference :=
  [Reference.mk (ResourceId.pack 1 1 10) (ResourceNameRef.mk "app" ResourceType.kAttr "a"),
   Reference.mk (ResourceId.pack 1 1 20) (ResourceNameRef.mk "other" ResourceType.kAttr "b"),
   Reference.mk (ResourceId.pack 1 1 30) (ResourceNameRef.mk "app" ResourceType.kAttr "c.x")]

/-- A table whose single `id` entry is named `"class"`, a reserved word,
followed by a further entry and a further type. -/
def badTable : ResourceTable :=
  ResourceTable.mk "app" 1
    [ResourceTableType.mk ResourceType.kId 1
       [ResourceEntry.mk 1 "class" [], ResourceEntry.mk 2 "ok" []],
     ResourceTableType.mk ResourceType.kString 3 [ResourceEntry.mk 1 "s" []]]

/-- A styleable table (first value consulted). -/
def exStyTable : ResourceTable :=
  ResourceTable.mk "app" 1
    [ResourceTableType.mk ResourceType.kStyleable 2
       [ResourceEntry.mk 1 "Theme" [Value.styleable exAttrs]]]

/-- `exStyTable` with extra never-read values appended after the first. -/
def exStyTable' : ResourceTable :=
  ResourceTable.mk "app" 1
    [ResourceTableType.mk ResourceType.kStyleable 2
       [ResourceEntry.mk 1 "Theme" [Value.styleable exAttrs, Value.other 7]]]

theorem ResourceType.rank_inj : ∀ (a b : ResourceType), a.rank = b.rank → a = b := by
  intro a b h
  cases a <;> cases b <;> first | rfl | simp [ResourceType.rank] at h

theorem attrKey_inj : Function.Injective attrKey := by
  rintro ⟨⟨i⟩, ⟨p, ty, e⟩⟩ ⟨⟨i'⟩, ⟨p', ty', e'⟩⟩ h
  simp only [attrKey, toLex_inj, Prod.mk.injEq] at h
  obtain ⟨h1, h2, h3, h4⟩ := h
  cases ResourceType.rank_inj _ _ h3
  simp [h1, h2, h4]

instance : IsTotal (ResourceId × ResourceNameRef) attrLe :=
  ⟨fun a b => le_total (attrKey a) (attrKey b)⟩

instance : IsTrans (ResourceId × ResourceNameRef) attrLe :=
  ⟨fun _ _ _ h1 h2 => le_trans h1 h2⟩

instance : IsAntisymm (ResourceId × ResourceNameRef) attrLe :=
  ⟨fun _ _ h1 h2 => attrKey_inj (le_antisymm h1 h2)⟩

theorem sortAttrs_sorted (l : List (ResourceId × ResourceNameRef)) :
    List.Sorted attrLe (sortAttrs l) :=
  List.sorted_insertionSort attrLe l

theorem sortAttrs_perm (l : List (ResourceId × ResourceNameRef)) :
    (sortAttrs l).Perm l :=
  List.perm_insertionSort attrLe l

theorem sortAttrs_eq_of_perm {l l' : List (ResourceId × ResourceNameRef)}
    (h : l.Perm l') : sortAttrs l = sortAttrs l' :=
  List.eq_of_perm_of_sorted
    ((sortAttrs_perm l).trans (h.trans (sortAttrs_perm l').symm))
    (sortAttrs_sorted l) (sortAttrs_sorted l')

theorem attrLe_id_le {a b : ResourceId × ResourceNameRef} (h : attrLe a b) :
    a.1.id ≤ b.1.id := by
  rcases (Prod.Lex.le_iff _ _).mp h with hlt | ⟨heq, _⟩
  · exact le_of_lt hlt
  · exact le_of_eq heq

theorem sortAttrs_ids_sorted (l : List (ResourceId × ResourceNameRef)) :
    List.Sorted (· ≤ ·) ((sortAttrs l).map fun p => p.1.id) :=
  List.Pairwise.map _ (fun _ _ h => attrLe_id_le h) (sortAttrs_sorted l)

theorem perm_all_eq {α : Type} {l l' : List α} (h : l.Perm l')
    (f : α → Bool) : l.all f = l'.all f := by
  rw [Bool.eq_iff_iff]
  simp only [List.all_eq_true]
  exact ⟨fun H a ha => H a (h.mem_iff.mpr ha), fun H a ha => H a (h.mem_iff.mp ha)⟩

theorem visitStyleable_perm {attrs attrs' : List Reference}
    (h : attrs.Perm attrs') (tp : String) (uf : Bool) (en : String) :
    visitStyleable tp uf en attrs = visitStyleable tp uf en attrs' := by
  unfold visitStyleable
  rw [perm_all_eq h, sortAttrs_eq_of_perm (h.map fun a => (a.id, a.name))]

theorem entryAssertOk_id {tbl : ResourceTable} {t : ResourceTableType}
    {e : ResourceEntry} (h : entryAssertOk tbl t e = true) :
    (ResourceId.pack tbl.packageId t.typeId e.entryId).isValid = true := by
  simp only [entryAssertOk, Bool.and_eq_true] at h
  exact h.1

theorem entryAssertOk_values {tbl : ResourceTable} {t : ResourceTableType}
    {e : ResourceEntry} (h : entryAssertOk tbl t e = true)
    (hty : t.type = ResourceType.kStyleable) :
    valuesAssertOk e.values = true := by
  simp only [entryAssertOk, Bool.and_eq_true, hty, if_pos] at h
  simpa using h.2

theorem processEntry_skip {tbl : ResourceTable} {opts : Options}
    {package : String} {t : ResourceTableType} {e : ResourceEntry}
    (hid : (ResourceId.pack tbl.packageId t.typeId e.entryId).isValid = true)
    (hres : resolvedName tbl package e.name = none) :
    processEntry tbl opts package t e = .skip := by
  simp [processEntry, hid, hres]

theorem processEntry_invalid {tbl : ResourceTable} {opts : Options}
    {package : String} {t : ResourceTableType} {e : ResourceEntry} {n : String}
    (hid : (ResourceId.pack tbl.packageId t.typeId e.entryId).isValid = true)
    (hres : resolvedName tbl package e.name = some n)
    (hbad : isValidSymbol n = false) :
    processEntry tbl opts package t e =
      .invalid ("invalid symbol name '"
        ++ ResourceNameRef.render ⟨package, t.type, n⟩ ++ "'") := by
  simp [processEntry, hid, hres, hbad]

theorem processEntry_plain {tbl : ResourceTable} {opts : Options}
    {package : String} {t : ResourceTableType} {e : ResourceEntry} {n : String}
    (hid : (ResourceId.pack tbl.packageId t.typeId e.entryId).isValid = true)
    (hty : t.type ≠ ResourceType.kStyleable)
    (hres : resolvedName tbl package e.name = some n)
    (hgood : isValidSymbol n = true) :
    processEntry tbl opts package t e =
      .emit ("        public static" ++ finalModifier opts.useFinal ++ " int "
        ++ transform n ++ " = "
        ++ (ResourceId.pack tbl.packageId t.typeId e.entryId).render ++ ";\n") := by
  simp [processEntry, hid, hres, hgood, hty]

theorem processEntry_emit {tbl : ResourceTable} {opts : Options}
    {package : String} {t : ResourceTableType} {e : ResourceEntry} {n : String}
    (hok : entryAssertOk tbl t e = true)
    (hres : resolvedName tbl package e.name = some n)
    (hgood : isValidSymbol n = true) :
    ∃ s, processEntry tbl opts package t e = .emit s := by
  have hid := entryAssertOk_id hok
  by_cases hty : t.type = ResourceType.kStyleable
  · have hv := entryAssertOk_values hok hty
    match hvals : e.values with
    | [] => rw [hvals] at hv; simp [valuesAssertOk] at hv
    | v :: rest =>
      rw [hvals] at hv
      match v with
      | .other tag =>
        refine ⟨"", ?_⟩
        simp [processEntry, hid, hres, hgood, hty, hvals]
      | .styleable s =>
        simp only [valuesAssertOk, Value.styleableAssertOk] at hv
        refine ⟨styleableArrayDecl n (sortAttrs (s.map fun a => (a.id, a.name)))
          ++ styleableIndexDecls tbl.package opts.useFinal n
               (sortAttrs (s.map fun a => (a.id, a.name))), ?_⟩
        simp [processEntry, hid, hres, hgood, hty, hvals, visitStyleable, hv]
  · exact ⟨_, processEntry_plain hid hty hres hgood⟩

theorem generateTypeGo_spec {tbl : ResourceTable} {opts : Options}
    {package : String} {t : ResourceTableType} :
    ∀ (es : List ResourceEntry) (acc : String),
    (∀ e ∈ es, entryAssertOk tbl t e = true) →
    (generateTypeGo tbl opts package t es acc).isOk
        = es.all (entrySymbolOk tbl package)
      ∧ (generateTypeGo tbl opts package t es acc).isAssertFailed = false
  | [], acc, _ => by simp [generateTypeGo, GenResult.isOk, GenResult.isAssertFailed]
  | e :: es, acc, hassert => by
    have hok : entryAssertOk tbl t e = true := hassert e (List.mem_cons_self e es)
    have hrest : ∀ x ∈ es, entryAssertOk tbl t x = true :=
      fun x hx => hassert x (List.mem_cons_of_mem e hx)
    have hid := entryAssertOk_id hok
    match hres : resolvedName tbl package e.name with
    | none =>
      have hstep := @processEntry_skip tbl opts package t e hid hres
      have hsym : entrySymbolOk tbl package e = true := by
        simp [entrySymbolOk, hres]
      simp only [generateTypeGo, hstep, List.all_cons, hsym, Bool.true_and]
      exact generateTypeGo_spec es acc hrest
    | some n =>
      match hgood : isValidSymbol n with
      | false =>
        have hstep := @processEntry_invalid tbl opts package t e n hid hres hgood
        have hsym : entrySymbolOk tbl package e = false := by
          simp [entrySymbolOk, hres, hgood]
        simp [generateTypeGo, hstep, List.all_cons, hsym,
          GenResult.isOk, GenResult.isAssertFailed]
      | true =>
        obtain ⟨s, hstep⟩ := @processEntry_emit tbl opts package t e n hok hres hgood
        have hsym : entrySymbolOk tbl package e = true := by
          simp [entrySymbolOk, hres, hgood]
        simp only [generateTypeGo, hstep, List.all_cons, hsym, Bool.true_and]
        exact generateTypeGo_spec es (acc ++ s) hrest

theorem generateType_spec {tbl : ResourceTable} {opts : Options}
    {package : String} {t : ResourceTableType}
    (hassert : ∀ e ∈ t.entries, entryAssertOk tbl t e = true) :
    (generateType tbl opts package t).isOk = typeSymbolsOk tbl package t
      ∧ (generateType tbl opts package t).isAssertFailed = false :=
  generateTypeGo_spec t.entries "" hassert

theorem generateGo_spec {tbl : ResourceTable} {opts : Options}
    {package : String} :
    ∀ (ts : List ResourceTableType) (acc : String),
    (∀ t ∈ ts, ∀ e ∈ t.entries, entryAssertOk tbl t e = true) →
    (generateGo tbl opts package ts acc).isOk
        = ts.all (typeSymbolsOk tbl package)
      ∧ (generateGo tbl opts package ts acc).isAssertFailed = false
  | [], acc, _ => by simp [generateGo, GenResult.isOk, GenResult.isAssertFailed]
  | t :: ts, acc, hassert => by
    have hok := @generateType_spec tbl opts package t
      (hassert t (List.mem_cons_self t ts))
    have hrest : ∀ u ∈ ts, ∀ e ∈ u.entries, entryAssertOk tbl u e = true :=
      fun u hu => hassert u (List.mem_cons_of_mem t hu)
    match hgt : generateType tbl opts package t with
    | .ok s =>
      rw [hgt] at hok
      have hsym : typeSymbolsOk tbl package t = true := by
        simpa [GenResult.isOk] using hok.1.symm
      simp only [generateGo, hgt, List.all_cons, hsym, Bool.true_and]
      exact generateGo_spec ts _ hrest
    | .invalidSymbol s err =>
      rw [hgt] at hok
      have hsym : typeSymbolsOk tbl package t = false := by
        simpa [GenResult.isOk] using hok.1.symm
      simp [generateGo, hgt, List.all_cons, hsym,
        GenResult.isOk, GenResult.isAssertFailed]
    | .assertFailed s =>
      rw [hgt] at hok
      simp [GenResult.isAssertFailed] at hok

theorem tableAssertOk_forall {tbl : ResourceTable}
    (h : tableAssertOk tbl = true) :
    ∀ t ∈ tbl.types, ∀ e ∈ t.entries, entryAssertOk tbl t e = true := by
  intro t ht e he
  simp only [tableAssertOk, List.all_eq_true] at h
  exact h t ht e he

theorem generate_spec {tbl : ResourceTable} {opts : Options} {package : String}
    (hassert : tableAssertOk tbl = true) :
    (generate tbl opts package).isOk = tableSymbolsOk tbl package
      ∧ (generate tbl opts package).isAssertFailed = false := by
  have := @generateGo_spec tbl opts package
    tbl.types (generateHeader package ++ "public final class R \x7b\n")
    (tableAssertOk_forall hassert)
  simpa [generate, tableSymbolsOk] using this

theorem processEntry_congr {tbl tbl' : ResourceTable} {opts : Options}
    {package : String} {t u : ResourceTableType} {e f : ResourceEntry}
    (hpkg : tbl.package = tbl'.package) (hpid : tbl.packageId = tbl'.packageId)
    (htype : t.type = u.type) (htid : t.typeId = u.typeId)
    (heid : e.entryId = f.entryId) (hname : e.name = f.name)
    (hhead : t.type = ResourceType.kStyleable → e.values.head? = f.values.head?) :
    processEntry tbl opts package t e = processEntry tbl' opts package u f := by
  have hres : resolvedName tbl package e.name = resolvedName tbl' package f.name := by
    unfold resolvedName
    rw [hname, hpkg]
  by_cases hsty : t.type = ResourceType.kStyleable
  · have hh := hhead hsty
    have hsty' : u.type = ResourceType.kStyleable := htype ▸ hsty
    simp only [processEntry, hpid, htid, heid, hres, htype, hh, hpkg, hsty', if_true]
  · have hsty' : ¬(u.type = ResourceType.kStyleable) := htype ▸ hsty
    simp only [processEntry, hpid, htid, heid, hres, htype, hpkg, hsty', if_false]

theorem generateTypeGo_congr {tbl tbl' : ResourceTable} {opts : Options}
    {package : String} {t u : ResourceTableType}
    (hpkg : tbl.package = tbl'.package) (hpid : tbl.packageId = tbl'.packageId)
    (htype : t.type = u.type) (htid : t.typeId = u.typeId) :
    ∀ (es fs : List ResourceEntry) (acc : String),
    entriesAgree (t.type == ResourceType.kStyleable) es fs = true →
    generateTypeGo tbl opts package t es acc
      = generateTypeGo tbl' opts package u fs acc
  | [], [], _, _ => rfl
  | [], _ :: _, _, h => by simp [entriesAgree] at h
  | _ :: _, [], _, h => by simp [entriesAgree] at h
  | e :: es, f :: fs, acc, h => by
    simp only [entriesAgree, Bool.and_eq_true, beq_iff_eq] at h
    obtain ⟨⟨⟨heid, hname⟩, hhead⟩, hrest⟩ := h
    have hh : t.type = ResourceType.kStyleable → e.values.head? = f.values.head? := by
      intro hsty
      rcases Bool.or_eq_true _ _ |>.mp hhead with h1 | h2
      · simp [hsty] at h1
      · exact beq_iff_eq.mp h2
    have hpe := @processEntry_congr tbl tbl' opts package t u e f
      hpkg hpid htype htid heid hname hh
    simp only [generateTypeGo, ← hpe]
    cases hp : processEntry tbl opts package t e with
    | skip =>
      exact generateTypeGo_congr hpkg hpid htype htid es fs acc hrest
    | emit s =>
      exact generateTypeGo_congr hpkg hpid htype htid es fs (acc ++ s) hrest
    | invalid err => rfl
    | assertFail => rfl

theorem generateGo_congr {tbl tbl' : ResourceTable} {opts : Options}
    {package : String}
    (hpkg : tbl.package = tbl'.package)
    (hpid : tbl.packageId = tbl'.packageId) :
    ∀ (ts us : List ResourceTableType) (acc : String),
    typesAgree ts us = true →
    generateGo tbl opts package ts acc = generateGo tbl' opts package us acc
  | [], [], _, _ => rfl
  | [], _ :: _, _, h => by simp [typesAgree] at h
  | _ :: _, [], _, h => by simp [typesAgree] at h
  | t :: ts, u :: us, acc, h => by
    simp only [typesAgree, Bool.and_eq_true, beq_iff_eq] at h
    obtain ⟨⟨⟨htype, htid⟩, hentries⟩, hrest⟩ := h
    have hgt : generateType tbl opts package t = generateType tbl' opts package u := by
      unfold generateType
      have : entriesAgree (t.type == ResourceType.kStyleable) t.entries u.entries
          = true := by
        simpa [beq_iff_eq] using hentries
      exact generateTypeGo_congr hpkg hpid htype htid t.entries u.entries "" this
    simp only [generateGo, htype, ← hgt]
    cases hg : generateType tbl opts package t with
    | ok s => exact generateGo_congr hpkg hpid ts us _ hrest
    | invalidSymbol s err => rfl
    | assertFailed s => rfl

theorem processEntry_ne_skip {tbl : ResourceTable} {opts : Options}
    {package : String} {t : ResourceTableType} {e : ResourceEntry} {n : String}
    (hid : (ResourceId.pack tbl.packageId t.typeId e.entryId).isValid = true)
    (hres : resolvedName tbl package e.name = some n) :
    processEntry tbl opts package t e ≠ .skip := by
  intro h
  simp only [processEntry, hid, Bool.not_true, Bool.false_eq_true, if_false, hres] at h
  repeat' split at h
  all_goals simp at h

/-- C1: a non-styleable entry that passes the package filter and resolves
to a non-reserved name is emitted as a single constant declaration whose
value is the ResourceId packed from (the table's packageId, the type's
typeId, the entry's entryId) and whose name is the resolved name with `.`
and `-` replaced by `_`. -/
theorem spec_C1 (tbl : ResourceTable) (opts : Options) (package : String)
    (t : ResourceTableType) (entry : ResourceEntry) (plainName : String)
    (hty : t.type ≠ ResourceType.kStyleable)
    (hid : (ResourceId.pack tbl.packageId t.typeId entry.entryId).isValid = true)
    (hres : resolvedName tbl package entry.name = some plainName)
    (hgood : isValidSymbol plainName = true) :
    processEntry tbl opts package t entry =
      .emit ("        public static" ++ finalModifier opts.useFinal ++ " int "
        ++ transform plainName ++ " = "
        ++ (ResourceId.pack tbl.packageId t.typeId entry.entryId).render ++ ";\n") :=
  processEntry_plain hid hty hres hgood

theorem spec_C1_witness :
    (exIdType.type ≠ ResourceType.kStyleable
        ∧ (ResourceId.pack exTable.packageId exIdType.typeId exFooEntry.entryId).isValid = true
        ∧ resolvedName exTable "app" exFooEntry.name = some "foo"
        ∧ isValidSymbol "foo" = true)
    ∧ processEntry exTable ⟨true⟩ "app" exIdType exFooEntry =
        .emit ("        public static" ++ finalModifier true ++ " int "
          ++ transform "foo" ++ " = "
          ++ (ResourceId.pack exTable.packageId exIdType.typeId exFooEntry.entryId).render
          ++ ";\n") :=
  ⟨⟨by decide, by decide, by decide, by decide⟩,
    spec_C1 exTable ⟨true⟩ "app" exIdType exFooEntry "foo"
      (by decide) (by decide) (by decide) (by decide)⟩

/-- C2: the styleable array lists the attribute ResourceIds sorted
ascending, the index constants assign to the attribute at sorted position
`i` exactly the value `i`, and the emission is invariant under any
permutation of the styleable's attribute storage order. -/
theorem spec_C2 (tablePackage : String) (useFinal : Bool) (entryName : String)
    (attrs attrs' : List Reference) (hperm : attrs.Perm attrs') :
    List.Sorted (· ≤ ·)
      ((sortAttrs (attrs.map fun a => (a.id, a.name))).map fun p => p.1.id)
  ∧ (sortAttrs (attrs.map fun a => (a.id, a.name))).Perm
      (attrs.map fun a => (a.id, a.name))
  ∧ visitStyleable tablePackage useFinal entryName attrs
      = visitStyleable tablePackage useFinal entryName attrs'
  ∧ (∀ (i : Nat) (p : ResourceId × ResourceNameRef),
       (sortAttrs (attrs.map fun a => (a.id, a.name))).get? i = some p →
       ((sortAttrs (attrs.map fun a => (a.id, a.name))).enum.map
           (fun q => indexLine tablePackage useFinal entryName q.1 q.2.2)).get? i
         = some (indexLine tablePackage useFinal entryName i p.2)) := by
  refine ⟨sortAttrs_ids_sorted _, sortAttrs_perm _,
    visitStyleable_perm hperm tablePackage useFinal entryName, ?_⟩
  intro i p hp
  rw [List.get?_map, List.get?_enum, hp]
  rfl

theorem spec_C2_witness :
    exAttrs.Perm exAttrsPerm
    ∧ visitStyleable "app" true "Theme" exAttrs
        = visitStyleable "app" true "Theme" exAttrsPerm :=
  ⟨by decide,
    (spec_C2 "app" true "Theme" exAttrs exAttrsPerm (by decide)).2.2.1⟩

/-- C3: when generating for target package `P`, an entry whose name
unmangles is processed (not skipped) iff its origin package equals `P`; an
entry whose name is not mangled is processed iff `P` is the table's own
package; a skipped entry contributes no output and the loop continues with
the remaining entries. -/
theorem spec_C3 (tbl : ResourceTable) (opts : Options) (package : String)
    (t : ResourceTableType) (entry : ResourceEntry)
    (hid : (ResourceId.pack tbl.packageId t.typeId entry.entryId).isValid = true) :
    (∀ originPackage plainName,
        unmangle entry.name = some (originPackage, plainName) →
        (processEntry tbl opts package t entry ≠ .skip ↔ package = originPackage))
  ∧ (unmangle entry.name = none →
        (processEntry tbl opts package t entry ≠ .skip ↔ package = tbl.package))
  ∧ (∀ rest acc, processEntry tbl opts package t entry = .skip →
        generateTypeGo tbl opts package t (entry :: rest) acc
          = generateTypeGo tbl opts package t rest acc) := by
  refine ⟨?_, ?_, ?_⟩
  · intro originPackage plainName hu
    constructor
    · intro hne
      by_contra hpne
      exact hne (processEntry_skip hid (by simp [resolvedName, hu, hpne]))
    · intro hpe
      exact processEntry_ne_skip hid
        (n := plainName) (by simp [resolvedName, hu, hpe])
  · intro hu
    constructor
    · intro hne
      by_contra hpne
      exact hne (processEntry_skip hid (by simp [resolvedName, hu, hpne]))
    · intro hpe
      exact processEntry_ne_skip hid
        (n := entry.name) (by simp [resolvedName, hu, hpe])
  · intro rest acc h
    simp [generateTypeGo, h]

theorem spec_C3_witness :
    ((ResourceId.pack exTable.packageId exIdType.typeId exFooEntry.entryId).isValid = true
        ∧ unmangle exFooEntry.name = none)
    ∧ (processEntry exTable ⟨true⟩ "app" exIdType exFooEntry ≠ .skip
        ↔ "app" = exTable.package) :=
  ⟨⟨by decide, by decide⟩,
    (spec_C3 exTable ⟨true⟩ "app" exIdType exFooEntry (by decide)).2.1 (by decide)⟩

/-- C4: an entry whose resolved name is reserved makes `generateType`
return failure with an error naming the resource's type and
package-qualified name; entries after it are never processed and types
after the failing one are never opened; under the assertion preconditions,
`generate` succeeds iff no processed entry resolves to a reserved name. -/
theorem spec_C4 (tbl : ResourceTable) (opts : Options) (package : String)
    (hassert : tableAssertOk tbl = true) :
    ((generate tbl opts package).isOk = tableSymbolsOk tbl package)
  ∧ (∀ (t : ResourceTableType) (entry : ResourceEntry) (plainName : String),
       (ResourceId.pack tbl.packageId t.typeId entry.entryId).isValid = true →
       resolvedName tbl package entry.name = some plainName →
       isValidSymbol plainName = false →
       processEntry tbl opts package t entry
         = .invalid ("invalid symbol name '" ++ package ++ ":" ++ t.type.tag
             ++ "/" ++ plainName ++ "'"))
  ∧ (∀ (t : ResourceTableType) (entry : ResourceEntry)
       (rest : List ResourceEntry) (acc err : String),
       processEntry tbl opts package t entry = .invalid err →
       generateTypeGo tbl opts package t (entry :: rest) acc
         = .invalidSymbol acc err)
  ∧ (∀ (t : ResourceTableType) (ts : List ResourceTableType) (acc s err : String),
       generateType tbl opts package t = .invalidSymbol s err →
       generateGo tbl opts package (t :: ts) acc
         = .invalidSymbol (acc ++ "    public static final class "
             ++ t.type.tag ++ " \x7b\n" ++ s) err) := by
  refine ⟨(generate_spec hassert).1, ?_, ?_, ?_⟩
  · intro t entry plainName hid hres hbad
    rw [processEntry_invalid hid hres hbad]
    simp [ResourceNameRef.render, String.append_assoc]
  · intro t entry rest acc err h
    simp [generateTypeGo, h]
  · intro t ts acc s err h
    simp only [generateGo, h]

theorem spec_C4_witness :
    tableAssertOk badTable = true
    ∧ (generate badTable ⟨true⟩ "app").isOk = tableSymbolsOk badTable "app" :=
  ⟨by decide, (spec_C4 badTable ⟨true⟩ "app" (by decide)).1⟩

/-- C5: `transform` replaces exactly the characters `.` and `-` with `_`,
preserving length and every other character, and the styleable emission
applies it to owner names, attribute package segments and attribute entry
names. -/
theorem spec_C5 :
    (∀ s : String, (transform s).data = s.data.map transformChar
       ∧ (transform s).length = s.length)
  ∧ transformChar '.' = '_'
  ∧ transformChar '-' = '_'
  ∧ (∀ c : Char, c ≠ '.' → c ≠ '-' → transformChar c = c)
  ∧ (∀ (tablePackage : String) (useFinal : Bool) (en en' : String)
       (attrs : List Reference), transform en = transform en' →
       visitStyleable tablePackage useFinal en attrs
         = visitStyleable tablePackage useFinal en' attrs)
  ∧ (∀ (tablePackage en : String) (nm : ResourceNameRef),
       indexName tablePackage en nm
         = transform en
           ++ (if nm.package ≠ tablePackage then "_" ++ transform nm.package else "")
           ++ "_" ++ transform nm.entry) := by
  refine ⟨?_, rfl, rfl, ?_, ?_, fun _ _ _ => rfl⟩
  · intro s
    exact ⟨rfl, List.length_map s.data transformChar⟩
  · intro c h1 h2
    simp [transformChar, h1, h2]
  · intro tablePackage useFinal en en' attrs h
    simp only [visitStyleable, styleableArrayDecl, styleableIndexDecls,
      indexLine, indexName, h]

theorem spec_C5_witness :
    ('x' ≠ '.' ∧ 'x' ≠ '-' ∧ transformChar 'x' = 'x')
    ∧ transform "a.b-c" = "a_b_c" :=
  ⟨⟨by decide, by decide,
     spec_C5.2.2.2.1 'x' (by decide) (by decide)⟩, by decide⟩

/-- C6: the index constant for the attribute at sorted position `i` is
named from the transformed owner name, then — exactly when the attribute's
package differs from the table's package — the transformed attribute
package, then the transformed attribute entry name, joined by `_`; its
value is `i`. -/
theorem spec_C6 (tablePackage : String) (useFinal : Bool) (entryName : String)
    (attrs : List Reference) (i : Nat) (p : ResourceId × ResourceNameRef)
    (hp : (sortAttrs (attrs.map fun a => (a.id, a.name))).get? i = some p) :
    ((sortAttrs (attrs.map fun a => (a.id, a.name))).enum.map
        (fun q => indexLine tablePackage useFinal entryName q.1 q.2.2)).get? i
      = some ("        public static" ++ finalModifier useFinal ++ " int "
          ++ indexName tablePackage entryName p.2 ++ " = " ++ toString i ++ ";\n")
  ∧ (p.2.package = tablePackage →
       indexName tablePackage entryName p.2
         = transform entryName ++ "_" ++ transform p.2.entry)
  ∧ (p.2.package ≠ tablePackage →
       indexName tablePackage entryName p.2
         = transform entryName ++ "_" ++ transform p.2.package
           ++ "_" ++ transform p.2.entry)
  ∧ styleableIndexDecls tablePackage useFinal entryName
        (sortAttrs (attrs.map fun a => (a.id, a.name)))
      = String.join ((sortAttrs (attrs.map fun a => (a.id, a.name))).enum.map
          fun q => indexLine tablePackage useFinal entryName q.1 q.2.2) := by
  refine ⟨?_, ?_, ?_, rfl⟩
  · rw [List.get?_map, List.get?_enum, hp]
    rfl
  · intro h
    simp [indexName, h, String.append_assoc]
  · intro h
    simp [indexName, h, String.append_assoc]

theorem spec_C6_witness :
    (sortAttrs (exAttrs.map fun a => (a.id, a.name))).get? 1
        = some (ResourceId.pack 1 1 20,
                ResourceNameRef.mk "other" ResourceType.kAttr "b")
    ∧ ((sortAttrs (exAttrs.map fun a => (a.id, a.name))).enum.map
          (fun q => indexLine "app" true "Theme" q.1 q.2.2)).get? 1
        = some ("        public static" ++ finalModifier true ++ " int "
            ++ indexName "app" "Theme"
                 (ResourceNameRef.mk "other" ResourceType.kAttr "b")
            ++ " = " ++ toString 1 ++ ";\n") :=
  ⟨by decide,
    (spec_C6 "app" true "Theme" exAttrs 1
      (ResourceId.pack 1 1 20, ResourceNameRef.mk "other" ResourceType.kAttr "b")
      (by decide)).1⟩

/-- C7: on the spec's round-trip table (package `"app"`, one `"id"` entry
`"foo"` with id `pack(1,1,1)`), generation emits exactly one constant,
`public static final int foo = <packed>;` with `useFinal = true` and
`public static int foo = <packed>;` with `useFinal = false`; the flag
controls exactly the ` final` modifier. -/
theorem spec_C7 :
    generate exTable ⟨true⟩ "app"
      = .ok (generateHeader "app" ++ "public final class R \x7b\n"
          ++ "    public static final class id \x7b\n"
          ++ "        public static final int foo = 0x01010001;\n"
          ++ "    \x7d\n" ++ "\x7d\n")
  ∧ generate exTable ⟨false⟩ "app"
      = .ok (generateHeader "app" ++ "public final class R \x7b\n"
          ++ "    public static final class id \x7b\n"
          ++ "        public static int foo = 0x01010001;\n"
          ++ "    \x7d\n" ++ "\x7d\n")
  ∧ finalModifier true = " final"
  ∧ finalModifier false = "" := by
  refine ⟨?_, ?_, rfl, rfl⟩ <;> (set_option maxRecDepth 10000 in decide)

/-- C8: if every entry's packed ResourceId is valid and every styleable
entry has a non-empty value list whose first value passes the styleable
visitor's asserts, then no assertion fires during generation. -/
theorem spec_C8 (tbl : ResourceTable) (opts : Options) (package : String)
    (hassert : tableAssertOk tbl = true) :
    (generate tbl opts package).isAssertFailed = false :=
  (generate_spec hassert).2

theorem spec_C8_witness :
    tableAssertOk exStyTable = true
    ∧ (generate exStyTable ⟨true⟩ "app").isAssertFailed = false :=
  ⟨by decide, spec_C8 exStyTable ⟨true⟩ "app" (by decide)⟩

/-- C9: two tables that agree on packages, ids, names, types and the first
value of every styleable entry — differing only in values the generator
never reads — produce identical generation results. -/
theorem spec_C9 (a b : ResourceTable) (opts : Options) (package : String)
    (h : tablesAgree a b = true) :
    generate a opts package = generate b opts package := by
  simp only [tablesAgree, Bool.and_eq_true, beq_iff_eq] at h
  obtain ⟨⟨hpkg, hpid⟩, hts⟩ := h
  unfold generate
  exact generateGo_congr hpkg hpid a.types b.types _ hts

theorem spec_C9_witness :
    tablesAgree exStyTable exStyTable' = true
    ∧ generate exStyTable ⟨true⟩ "app" = generate exStyTable' ⟨true⟩ "app" :=
  ⟨by decide, spec_C9 exStyTable exStyTable' ⟨true⟩ "app" (by decide)⟩

/-- C10: the styleable id-array constant always carries the `final`
modifier (`public static final int[]`) whatever `useFinal` is; the option
only enters the plain-constant and index-constant lines through
`finalModifier`. -/
theorem spec_C10 (tablePackage : String) (useFinal useFinal' : Bool)
    (entryName : String) (attrs : List Reference)
    (hok : attrs.all (fun attr => attr.id.isValid && attr.name.isValid) = true) :
    visitStyleable tablePackage useFinal entryName attrs
      = some (styleableArrayDecl entryName
            (sortAttrs (attrs.map fun a => (a.id, a.name)))
          ++ styleableIndexDecls tablePackage useFinal entryName
            (sortAttrs (attrs.map fun a => (a.id, a.name))))
  ∧ (∃ rest, styleableArrayDecl entryName
        (sortAttrs (attrs.map fun a => (a.id, a.name)))
      = "        public static final int[] " ++ rest)
  ∧ (∀ (i : Nat) (nm : ResourceNameRef),
      indexLine tablePackage useFinal' entryName i nm
        = "        public static" ++ finalModifier useFinal' ++ " int "
          ++ indexName tablePackage entryName nm ++ " = " ++ toString i ++ ";\n")
  ∧ finalModifier true = " final"
  ∧ finalModifier false = "" := by
  refine ⟨?_, ?_, fun _ _ => rfl, rfl, rfl⟩
  · simp [visitStyleable, hok]
  · refine ⟨transform entryName ++ (" = \x7b"
      ++ (String.join ((sortAttrs (attrs.map fun a => (a.id, a.name))).enum.map
            fun p => arrayItem
              (sortAttrs (attrs.map fun a => (a.id, a.name))).length p.1 p.2.1)
        ++ "\n        \x7d;\n")), ?_⟩
    simp [styleableArrayDecl, String.append_assoc]

theorem spec_C10_witness :
    exAttrs.all (fun attr => attr.id.isValid && attr.name.isValid) = true
    ∧ visitStyleable "app" false "Theme" exAttrs
        = some (styleableArrayDecl "Theme"
              (sortAttrs (exAttrs.map fun a => (a.id, a.name)))
            ++ styleableIndexDecls "app" false "Theme"
              (sortAttrs (exAttrs.map fun a => (a.id, a.name)))) :=
  ⟨by decide, (spec_C10 "app" false true "Theme" exAttrs (by decide)).1⟩

end Aapt
